import Mathlib

/-!
Verification development for the concurrent batch processing pipeline of
video-draft-creator. The repository snapshot ships the test suite but not
the `video_draft_creator` package itself, so every definition below is
modelled from the specification (spec.md sections 3, 4, 7 and 8) and the
observable behaviour pinned down by the tests under `tests/`.
-/

namespace VideoDraft

/-- Modelled from the spec: the failure taxonomy of the external
collaborators (spec sections 6 and 7); the package source is missing from
the snapshot. -/
inductive FailureKind
  | networkError
  | serverError
  | rateLimited
  | invalidRequest
  | contentError
  | notSupported
  | transcriptionError
  | ioFailure
deriving DecidableEq, Repr

/-- Modelled from the spec: the outcome of one invocation of a wrapped
blocking operation, as seen by the Resilient Call Executor.  The Executor
only observes either a value or a classified failure. -/
inductive AttemptResult
  | ok (value : String)
  | fail (kind : FailureKind) (message : String)
deriving DecidableEq, Repr

/-- Modelled from the spec: `CallOutcome` — tagged result of one resilient
call, `Success{value} | Failure{kind, message, attempts}` (spec data
model, section 3). -/
inductive CallOutcome
  | success (value : String)
  | failure (kind : FailureKind) (message : String) (attempts : Nat)
deriving DecidableEq, Repr

/-- Modelled from the spec: `RetryPolicy` — `{max_attempts ≥ 1,
base_delay_seconds, max_delay_seconds, retryable_kinds}` (spec data model,
section 3). -/
structure RetryPolicy where
  max_attempts : Nat
  base_delay : ℚ
  max_delay : ℚ
  retryable_kinds : List FailureKind
deriving DecidableEq, Repr

/-- Whether an attempt outcome is a failure whose kind the policy
retries. -/
def isRetryableFailure (p : RetryPolicy) : AttemptResult → Bool
  | .ok _ => false
  | .fail k _ => decide (k ∈ p.retryable_kinds)

/-- Modelled from the spec: the backoff wait before retrying attempt
`i + 1`, namely `min(base_delay * 2^(i-1), max_delay)` with `i` counted
from 1 (spec section 4.1). -/
def backoffDelay (p : RetryPolicy) (i : Nat) : ℚ :=
  min (p.base_delay * 2 ^ (i - 1)) p.max_delay

/-- Everything the Resilient Call Executor produces on one call: the typed
outcome, how many times it invoked the wrapped operation, and the backoff
waits it performed between attempts, in order. -/
structure ExecTrace where
  outcome : CallOutcome
  invocations : Nat
  delays : List ℚ
deriving DecidableEq, Repr

/-- Modelled from the spec: the attempt loop of the Resilient Call
Executor (spec section 4.1).  `attempt` is the 1-based number of the
current attempt and `remaining` the number of attempts still allowed
(including the current one).  A success returns immediately; a retryable
failure with attempts left waits `backoffDelay` and retries; a
non-retryable failure, or a retryable one on the last allowed attempt,
returns a terminal `Failure` recording the attempt count. -/
def executeFrom (op : Nat → AttemptResult) (p : RetryPolicy) :
    Nat → Nat → ExecTrace
  | _, 0 => ⟨.failure .networkError "no attempts allowed" 0, 0, []⟩
  | attempt, remaining + 1 =>
    match op attempt with
    | .ok v => ⟨.success v, 1, []⟩
    | .fail k m =>
      if k ∈ p.retryable_kinds then
        if remaining = 0 then
          ⟨.failure k m attempt, 1, []⟩
        else
          let r := executeFrom op p (attempt + 1) remaining
          ⟨r.outcome, r.invocations + 1, backoffDelay p attempt :: r.delays⟩
      else
        ⟨.failure k m attempt, 1, []⟩

/-- Modelled from the spec: `execute(operation, policy) -> CallOutcome`
(spec section 4.1), starting at attempt 1 with `policy.max_attempts`
total attempts allowed. -/
def execute (op : Nat → AttemptResult) (p : RetryPolicy) : ExecTrace :=
  executeFrom op p 1 p.max_attempts

/-- Modelled from the spec: the default policy for remote-model calls is
3 total attempts (spec section 4.1; `test_api_call_max_retries` expects
exactly 3 HTTP posts).  Server errors and rate limiting retry; malformed
requests do not (spec section 6, Corrector collaborator). -/
def defaultRemotePolicy : RetryPolicy :=
  ⟨3, 1, 60, [.serverError, .rateLimited, .networkError]⟩

lemma executeFrom_exhaust (op : Nat → AttemptResult) (p : RetryPolicy)
    (hall : ∀ i, isRetryableFailure p (op i) = true) :
    ∀ r a, 1 ≤ r →
      (executeFrom op p a r).invocations = r ∧
      ∃ k m, k ∈ p.retryable_kinds ∧
        (executeFrom op p a r).outcome = .failure k m (a + r - 1) := by
  intro r
  induction r with
  | zero => intro a h; omega
  | succ n ih =>
    intro a _
    have h := hall a
    unfold isRetryableFailure at h
    cases hop : op a with
    | ok v => rw [hop] at h; simp at h
    | fail k m =>
      rw [hop] at h
      have hk : k ∈ p.retryable_kinds := of_decide_eq_true h
      cases hn : n with
      | zero =>
        refine ⟨?_, k, m, hk, ?_⟩ <;> simp [executeFrom, hop, hk]
      | succ n2 =>
        have hrec := ih (a + 1) (by omega)
        rw [hn] at hrec
        simp only [executeFrom, hop, if_pos hk, hn]
        have hne : ¬(n2 + 1 = 0) := by omega
        simp only [hne, if_false]
        obtain ⟨hinv, k2, m2, hk2, hout⟩ := hrec
        refine ⟨by simpa using hinv, k2, m2, hk2, ?_⟩
        simpa [show a + 1 + (n2 + 1) - 1 = a + (n2 + 1 + 1) - 1 by omega]
          using hout

/-- C3: if the wrapped operation fails with a retryable kind on every
attempt, the executor invokes it exactly `max_attempts` times and returns
a terminal Failure whose `attempts` field equals `max_attempts`; under the
default remote-model policy the total attempt count is 3. -/
theorem retry_exhausts_max_attempts (op : Nat → AttemptResult)
    (p : RetryPolicy) (hmax : 1 ≤ p.max_attempts)
    (hall : ∀ i, isRetryableFailure p (op i) = true) :
    ((execute op p).invocations = p.max_attempts ∧
      ∃ k m, (execute op p).outcome = .failure k m p.max_attempts) ∧
    (∀ op2 : Nat → AttemptResult,
      (∀ i, isRetryableFailure defaultRemotePolicy (op2 i) = true) →
      (execute op2 defaultRemotePolicy).invocations = 3) := by
  constructor
  · have h := executeFrom_exhaust op p hall p.max_attempts 1 hmax
    obtain ⟨hinv, k, m, _, hout⟩ := h
    refine ⟨hinv, k, m, ?_⟩
    rw [execute, hout]
    congr 1
    omega
  · intro op2 hall2
    have h := executeFrom_exhaust op2 defaultRemotePolicy hall2
      defaultRemotePolicy.max_attempts 1 (by decide)
    exact h.1

/-- C3 witness: a policy with 3 attempts and an operation that always
fails with a retryable server error is invoked exactly 3 times. -/
theorem retry_exhausts_max_attempts_witness :
    (1 ≤ (3 : Nat) ∧
      ∀ i : Nat, isRetryableFailure ⟨3, 1, 60, [.serverError]⟩
        ((fun _ => .fail .serverError "boom") i) = true) ∧
    ((execute (fun _ => .fail .serverError "boom")
        ⟨3, 1, 60, [.serverError]⟩).invocations = 3 ∧
      ∃ k m, (execute (fun _ => .fail .serverError "boom")
        ⟨3, 1, 60, [.serverError]⟩).outcome = .failure k m 3) := by
  refine ⟨⟨by decide, fun i => rfl⟩, ?_⟩
  exact (retry_exhausts_max_attempts (fun _ => .fail .serverError "boom")
    ⟨3, 1, 60, [.serverError]⟩ (by decide) (fun i => rfl)).1

/-- C4: a failure of a non-retryable kind on the first attempt causes
exactly one invocation and an immediate terminal Failure with
`attempts = 1`; no remaining attempt is consumed. -/
theorem nonretryable_fails_immediately (op : Nat → AttemptResult)
    (p : RetryPolicy) (k : FailureKind) (m : String)
    (hmax : 1 ≤ p.max_attempts) (hop : op 1 = .fail k m)
    (hk : k ∉ p.retryable_kinds) :
    (execute op p).invocations = 1 ∧
    (execute op p).outcome = .failure k m 1 ∧
    (execute op p).delays = [] := by
  obtain ⟨r, hr⟩ : ∃ r, p.max_attempts = r + 1 :=
    ⟨p.max_attempts - 1, by omega⟩
  rw [execute, hr]
  simp [executeFrom, hop, hk]

/-- C4 witness: an invalid-request failure under the default remote
policy is not retried. -/
theorem nonretryable_fails_immediately_witness :
    (1 ≤ defaultRemotePolicy.max_attempts ∧
      (fun _ => AttemptResult.fail .invalidRequest "bad") 1 =
        .fail .invalidRequest "bad" ∧
      FailureKind.invalidRequest ∉ defaultRemotePolicy.retryable_kinds) ∧
    ((execute (fun _ => .fail .invalidRequest "bad")
        defaultRemotePolicy).invocations = 1 ∧
      (execute (fun _ => .fail .invalidRequest "bad")
        defaultRemotePolicy).outcome = .failure .invalidRequest "bad" 1 ∧
      (execute (fun _ => .fail .invalidRequest "bad")
        defaultRemotePolicy).delays = []) := by
  refine ⟨⟨by decide, ?_, by decide⟩, ?_⟩
  · rfl
  · exact nonretryable_fails_immediately
      (fun _ => .fail .invalidRequest "bad")
      defaultRemotePolicy .invalidRequest "bad" (by decide) rfl (by decide)

lemma executeFrom_succeeds (op : Nat → AttemptResult) (p : RetryPolicy)
    (j : Nat) (v : String) (hs : op j = .ok v) :
    ∀ r a, a ≤ j → j - a < r →
      (∀ i, a ≤ i → i < j → isRetryableFailure p (op i) = true) →
      (executeFrom op p a r).outcome = .success v ∧
      (executeFrom op p a r).invocations = j - a + 1 := by
  intro r
  induction r with
  | zero => intro a _ h _; omega
  | succ n ih =>
    intro a ha hlt hfail
    by_cases haj : a = j
    · subst haj
      simp [executeFrom, hs]
    · have haj2 : a < j := by omega
      have h := hfail a le_rfl haj2
      unfold isRetryableFailure at h
      cases hop : op a with
      | ok v2 => rw [hop] at h; simp at h
      | fail k m =>
        rw [hop] at h
        have hk : k ∈ p.retryable_kinds := of_decide_eq_true h
        have hn : ¬(n = 0) := by omega
        have hrec := ih (a + 1) (by omega) (by omega)
          (fun i h1 h2 => hfail i (by omega) h2)
        simp only [executeFrom, hop, if_pos hk, hn, if_false]
        refine ⟨hrec.1, ?_⟩
        have := hrec.2
        simp only [this]
        omega

/-- C5: if the operation fails with retryable kinds on attempts
`1 .. j-1` and succeeds on attempt `j ≤ max_attempts`, the executor
returns that Success and invoked the operation exactly `j` times. -/
theorem retry_then_success (op : Nat → AttemptResult) (p : RetryPolicy)
    (j : Nat) (v : String) (hj : 1 ≤ j) (hjmax : j ≤ p.max_attempts)
    (hfail : ∀ i, 1 ≤ i → i < j → isRetryableFailure p (op i) = true)
    (hs : op j = .ok v) :
    (execute op p).outcome = .success v ∧
    (execute op p).invocations = j := by
  have h := executeFrom_succeeds op p j v hs p.max_attempts 1 hj
    (by omega) hfail
  refine ⟨h.1, ?_⟩
  have := h.2
  rw [execute]
  omega

/-- C5 witness: one retryable server error followed by a success yields
the successful result after exactly 2 invocations. -/
theorem retry_then_success_witness :
    (1 ≤ (2 : Nat) ∧ 2 ≤ defaultRemotePolicy.max_attempts ∧
      (∀ i, 1 ≤ i → i < 2 → isRetryableFailure defaultRemotePolicy
        ((fun i2 => if i2 = 1 then AttemptResult.fail .serverError "oops"
          else .ok "done") i) = true) ∧
      (fun i2 => if i2 = 1 then AttemptResult.fail .serverError "oops"
        else .ok "done") 2 = .ok "done") ∧
    ((execute (fun i2 => if i2 = 1 then .fail .serverError "oops"
        else .ok "done") defaultRemotePolicy).outcome = .success "done" ∧
      (execute (fun i2 => if i2 = 1 then .fail .serverError "oops"
        else .ok "done") defaultRemotePolicy).invocations = 2) := by
  have hfail : ∀ i, 1 ≤ i → i < 2 → isRetryableFailure defaultRemotePolicy
      ((fun i2 => if i2 = 1 then AttemptResult.fail .serverError "oops"
        else .ok "done") i) = true := by
    intro i h1 h2
    have hi : i = 1 := by omega
    subst hi
    decide
  refine ⟨⟨by decide, by decide, hfail, by decide⟩, ?_⟩
  exact retry_then_success
    (fun i2 => if i2 = 1 then .fail .serverError "oops" else .ok "done")
    defaultRemotePolicy 2 "done" (by decide) (by decide) hfail (by decide)

lemma executeFrom_delays (op : Nat → AttemptResult) (p : RetryPolicy) :
    ∀ r a jj, jj < (executeFrom op p a r).delays.length →
      (executeFrom op p a r).delays.getD jj 0 = backoffDelay p (a + jj) := by
  intro r
  induction r with
  | zero => intro a jj h; simp [executeFrom] at h
  | succ n ih =>
    intro a jj h
    cases hop : op a with
    | ok v => rw [show executeFrom op p a (n + 1) =
        ⟨.success v, 1, []⟩ by simp [executeFrom, hop]] at h; simp at h
    | fail k m =>
      by_cases hk : k ∈ p.retryable_kinds
      · by_cases hn : n = 0
        · subst hn
          simp [executeFrom, hop, hk] at h
        · have heq : executeFrom op p a (n + 1) =
              ⟨(executeFrom op p (a + 1) n).outcome,
                (executeFrom op p (a + 1) n).invocations + 1,
                backoffDelay p a :: (executeFrom op p (a + 1) n).delays⟩ := by
            simp [executeFrom, hop, hk, hn]
          rw [heq] at h ⊢
          cases jj with
          | zero => simp
          | succ jj2 =>
            simp only [List.getD_cons_succ]
            have := ih (a + 1) jj2 (by simpa using h)
            rw [this]
            congr 1
            omega
      · rw [show executeFrom op p a (n + 1) =
          ⟨.failure k m a, 1, []⟩ by simp [executeFrom, hop, hk]] at h
        simp at h

/-- C6: the backoff delay recorded between attempt `i` and attempt
`i + 1` equals `min(base_delay * 2^(i-1), max_delay)` of the governing
RetryPolicy. -/
theorem backoff_schedule (op : Nat → AttemptResult) (p : RetryPolicy)
    (i : Nat) (h1 : 1 ≤ i) (h2 : i ≤ (execute op p).delays.length) :
    (execute op p).delays.getD (i - 1) 0 =
      min (p.base_delay * 2 ^ (i - 1)) p.max_delay := by
  have h := executeFrom_delays op p p.max_attempts 1 (i - 1)
    (by rw [execute] at h2; omega)
  rw [execute] at *
  rw [h]
  have hi : 1 + (i - 1) = i := by omega
  rw [hi, backoffDelay]

/-- C6 witness: with base delay 1 s, cap 60 s and three attempts of
retryable failures, the wait before attempt 3 is min(1·2¹, 60). -/
theorem backoff_schedule_witness :
    (1 ≤ (2 : Nat) ∧
      2 ≤ (execute (fun _ => .fail .serverError "boom")
        ⟨3, 1, 60, [.serverError]⟩).delays.length) ∧
    (execute (fun _ => .fail .serverError "boom")
        ⟨3, 1, 60, [.serverError]⟩).delays.getD (2 - 1) 0 =
      min ((1 : ℚ) * 2 ^ (2 - 1)) 60 := by
  refine ⟨⟨by decide, by decide⟩, ?_⟩
  exact backoff_schedule (fun _ => .fail .serverError "boom")
    ⟨3, 1, 60, [.serverError]⟩ 2 (by decide) (by decide)

/-- Modelled from the spec: `WorkItem` — `{url, index}`, the immutable
identity of one batch element (spec data model, section 3). -/
structure WorkItem where
  url : String
  index : Nat
deriving DecidableEq, Repr

/-- Modelled from the spec: the `error` part of an ItemResult —
`{stage, message}` (spec data model, section 3). -/
structure ItemError where
  stage : String
  message : String
deriving DecidableEq, Repr

/-- Modelled from the spec: the optional per-item artifacts of an
ItemResult (spec data model, section 3). -/
structure Artifacts where
  audio_path : String
  transcript_segments : List String
  corrected_text : String
  output_files : List String
deriving DecidableEq, Repr

/-- Modelled from the spec: `ItemResult` — `{item, success, artifacts?,
error?}`, created once per WorkItem (spec data model, section 3). -/
structure ItemResult where
  item : WorkItem
  success : Bool
  artifacts : Option Artifacts
  error : Option ItemError
deriving DecidableEq, Repr

/-- A placeholder result used only as the default of list lookups in
theorem statements. -/
def defaultItemResult : ItemResult := ⟨⟨"", 0⟩, false, none, none⟩

/-- What a Per-Item Worker computes for its item.  `Except.error`
models an unexpected internal fault escaping the worker body (spec
section 7, `Internal` taxon). -/
structure WorkerOutput where
  success : Bool
  artifacts : Option Artifacts
  error : Option ItemError
deriving DecidableEq, Repr

/-- A Per-Item Worker, abstractly: the full per-URL sequence as a
function from the work item to either its output or an escaped fault. -/
def WorkerStep : Type := WorkItem → Except String WorkerOutput

/-- Modelled from the spec: the scheduler boundary around one worker.  A
normal output is packaged into the item ItemResult; an escaped fault is
caught and converted into a failed ItemResult carrying the message (spec
sections 4.3 and 7). -/
def runItem (worker : WorkerStep) (it : WorkItem) : ItemResult :=
  match worker it with
  | .ok o => ⟨it, o.success, o.artifacts, o.error⟩
  | .error msg => ⟨it, false, none, some ⟨"internal", msg⟩⟩

/-- Modelled from the spec: pair each URL with its input index, starting
at `a` (spec section 4.3, dispatch in input order). -/
def mkItemsFrom : List String → Nat → List WorkItem
  | [], _ => []
  | u :: rest, i => ⟨u, i⟩ :: mkItemsFrom rest (i + 1)

/-- The work items of a batch, indexed from 0 in input order. -/
def mkItems (urls : List String) : List WorkItem := mkItemsFrom urls 0

/-- Modelled from the spec: strictly sequential scheduling — one worker
runs to completion before the next starts (spec section 4.3,
`concurrency = 1`; `download_batch_sequential` in the tests). -/
def download_batch_sequential (worker : WorkerStep)
    (urls : List String) : List ItemResult :=
  (mkItems urls).map (runItem worker)

/-- Modelled from the spec: a concurrent pool completes items in an
unspecified order; `order` lists the item indices in completion order and
the scheduler collects each completed ItemResult as it arrives (spec
section 4.3, `concurrency > 1`). -/
def collectByCompletion (worker : WorkerStep) (items : List WorkItem)
    (order : List Nat) : List ItemResult :=
  order.filterMap (fun i => (items.get? i).map (runItem worker))

/-- Modelled from the spec: the collected results are reordered back to
input order before return (spec section 4.3, guarantee (c)). -/
def reorderByIndex (rs : List ItemResult) (n : Nat) : List ItemResult :=
  (List.range n).filterMap (fun i => rs.find? (fun r => r.item.index == i))

/-- Modelled from the spec: `run_batch(urls, concurrency) -> ordered
sequence of ItemResult` (spec section 4.3).  `concurrency ≤ 1` selects
the strictly sequential mode; otherwise the pool mode with completion
order `order`. -/
def run_batch (worker : WorkerStep) (urls : List String)
    (concurrency : Nat) (order : List Nat) : List ItemResult :=
  if concurrency ≤ 1 then download_batch_sequential worker urls
  else reorderByIndex (collectByCompletion worker (mkItems urls) order)
    urls.length

/-- The ItemResult the batch should report at input position `i`. -/
def resultAt (worker : WorkerStep) (urls : List String) (i : Nat) :
    ItemResult :=
  runItem worker ⟨urls.getD i "", i⟩

lemma runItem_item (worker : WorkerStep) (it : WorkItem) :
    (runItem worker it).item = it := by
  unfold runItem
  cases worker it <;> rfl

lemma mkItemsFrom_get? (urls : List String) :
    ∀ a i, i < urls.length →
      (mkItemsFrom urls a).get? i = some ⟨urls.getD i "", a + i⟩ := by
  induction urls with
  | nil => intro a i h; simp at h
  | cons u rest ih =>
    intro a i h
    cases i with
    | zero => simp [mkItemsFrom]
    | succ i2 =>
      have := ih (a + 1) i2 (by simpa using h)
      simp only [mkItemsFrom, List.get?_cons_succ, List.getD_cons_succ]
      rw [this]
      congr 2
      omega

lemma mkItemsFrom_map_runItem (worker : WorkerStep) (urls : List String) :
    ∀ a, (mkItemsFrom urls a).map (runItem worker) =
      (List.range urls.length).map
        (fun i => runItem worker ⟨urls.getD i "", a + i⟩) := by
  induction urls with
  | nil => intro a; simp [mkItemsFrom]
  | cons u rest ih =>
    intro a
    simp only [mkItemsFrom, List.map_cons, List.length_cons,
      List.range_succ_eq_map, List.map_map]
    congr 1
    rw [ih (a + 1)]
    apply List.map_congr_left
    intro i _
    simp only [Function.comp]
    congr 2
    omega

lemma sequential_eq_spec (worker : WorkerStep) (urls : List String) :
    download_batch_sequential worker urls =
      (List.range urls.length).map (resultAt worker urls) := by
  unfold download_batch_sequential mkItems resultAt
  rw [mkItemsFrom_map_runItem]
  apply List.map_congr_left
  intro i _
  congr 2
  omega

lemma collect_eq_map (worker : WorkerStep) (urls : List String)
    (order : List Nat) (hmem : ∀ j ∈ order, j < urls.length) :
    collectByCompletion worker (mkItems urls) order =
      order.map (resultAt worker urls) := by
  induction order with
  | nil => rfl
  | cons j rest ih =>
    have hj : j < urls.length := hmem j (by simp)
    have hget : (mkItems urls).get? j = some ⟨urls.getD j "", j⟩ := by
      have h0 := mkItemsFrom_get? urls 0 j hj
      simpa [mkItems] using h0
    unfold collectByCompletion at *
    simp only [List.filterMap_cons, hget, Option.map_some']
    rw [ih (fun x hx => hmem x (by simp [hx]))]
    simp [resultAt]

lemma find_beq_of_mem (l : List Nat) (i : Nat) (h : i ∈ l) :
    l.find? (fun j => j == i) = some i := by
  induction l with
  | nil => simp at h
  | cons j rest ih =>
    by_cases hji : j = i
    · subst hji
      simp [List.find?_cons]
    · have : i ∈ rest := by
        cases h with
        | head => exact absurd rfl hji
        | tail _ h2 => exact h2
      simp only [List.find?_cons]
      rw [show (j == i) = false by simp [hji]]
      exact ih this

lemma find_result (worker : WorkerStep) (urls : List String)
    (order : List Nat) (i : Nat) (h : i ∈ order) :
    (order.map (resultAt worker urls)).find?
        (fun r => r.item.index == i) = some (resultAt worker urls i) := by
  induction order with
  | nil => simp at h
  | cons j rest ih =>
    have hidx : (resultAt worker urls j).item.index = j := by
      unfold resultAt
      rw [runItem_item]
    by_cases hji : j = i
    · subst hji
      rw [List.map_cons, List.find?_cons_of_pos _ (by simp [hidx])]
    · have hmem : i ∈ rest := by
        cases h with
        | head => exact absurd rfl hji
        | tail _ h2 => exact h2
      rw [List.map_cons, List.find?_cons_of_neg _ (by simp [hidx, hji])]
      exact ih hmem

lemma filterMap_eq_map_of_mem {α β : Type} (f : α → Option β) (g : α → β)
    (l : List α) (h : ∀ x ∈ l, f x = some (g x)) :
    l.filterMap f = l.map g := by
  induction l with
  | nil => rfl
  | cons x rest ih =>
    simp only [List.filterMap_cons, h x (by simp), List.map_cons]
    rw [ih (fun y hy => h y (by simp [hy]))]

lemma run_batch_eq_spec (worker : WorkerStep) (urls : List String)
    (concurrency : Nat) (order : List Nat)
    (hperm : order.Perm (List.range urls.length)) :
    run_batch worker urls concurrency order =
      (List.range urls.length).map (resultAt worker urls) := by
  unfold run_batch
  by_cases hc : concurrency ≤ 1
  · rw [if_pos hc, sequential_eq_spec]
  · rw [if_neg hc]
    have hmem : ∀ j ∈ order, j < urls.length := by
      intro j hj
      have := hperm.mem_iff.mp hj
      simpa using this
    rw [collect_eq_map worker urls order hmem]
    unfold reorderByIndex
    apply filterMap_eq_map_of_mem
    intro i hi
    have hio : i ∈ order := hperm.mem_iff.mpr hi
    exact find_result worker urls order i hio

/-- C1: for every batch of N URLs and every concurrency setting, the
batch returns exactly N ItemResults, and the result at position `i`
belongs to the `i`-th input URL — input order, not completion order. -/
theorem run_batch_ordered_complete (worker : WorkerStep)
    (urls : List String) (concurrency : Nat) (order : List Nat)
    (hc : 1 ≤ concurrency)
    (hperm : order.Perm (List.range urls.length)) :
    (run_batch worker urls concurrency order).length = urls.length ∧
    ∀ i, i < urls.length →
      ((run_batch worker urls concurrency order).getD i
          defaultItemResult).item = ⟨urls.getD i "", i⟩ := by
  rw [run_batch_eq_spec worker urls concurrency order hperm]
  refine ⟨by simp, ?_⟩
  intro i hi
  rw [List.getD_eq_getElem?_getD, List.getElem?_map,
    List.getElem?_range hi, Option.map_some', Option.getD_some]
  unfold resultAt
  rw [runItem_item]

/-- C1 witness: a 3-URL batch at concurrency 2 with completion order
[2, 0, 1] still reports results in input order. -/
theorem run_batch_ordered_complete_witness :
    (1 ≤ (2 : Nat) ∧
      List.Perm [2, 0, 1] (List.range (["a", "b", "c"] : List String).length)) ∧
    ((run_batch (fun _ => .ok ⟨true, none, none⟩) ["a", "b", "c"] 2
        [2, 0, 1]).length = (["a", "b", "c"] : List String).length ∧
      ∀ i, i < (["a", "b", "c"] : List String).length →
        ((run_batch (fun _ => .ok ⟨true, none, none⟩) ["a", "b", "c"] 2
            [2, 0, 1]).getD i defaultItemResult).item =
          ⟨(["a", "b", "c"] : List String).getD i "", i⟩) := by
  refine ⟨⟨by decide, by decide⟩, ?_⟩
  exact run_batch_ordered_complete (fun _ => .ok ⟨true, none, none⟩)
    ["a", "b", "c"] 2 [2, 0, 1] (by decide) (by decide)

/-- C2: a worker fault (an exception escaping the worker body) is caught
at the scheduler boundary: the faulting item is reported as a failed
ItemResult carrying the error message, the batch still returns one
result per input, and every other position reports exactly what its own
worker produced. -/
theorem worker_fault_contained (worker : WorkerStep)
    (urls : List String) (concurrency : Nat) (order : List Nat)
    (i0 : Nat) (msg : String) (hc : 1 ≤ concurrency)
    (hperm : order.Perm (List.range urls.length))
    (hi0 : i0 < urls.length)
    (hraise : worker ⟨urls.getD i0 "", i0⟩ = .error msg) :
    (run_batch worker urls concurrency order).length = urls.length ∧
    (run_batch worker urls concurrency order).getD i0 defaultItemResult =
      ⟨⟨urls.getD i0 "", i0⟩, false, none, some ⟨"internal", msg⟩⟩ ∧
    ∀ j, j < urls.length →
      (run_batch worker urls concurrency order).getD j defaultItemResult =
        runItem worker ⟨urls.getD j "", j⟩ := by
  rw [run_batch_eq_spec worker urls concurrency order hperm]
  have hgetD : ∀ j, j < urls.length →
      (((List.range urls.length).map (resultAt worker urls)).getD j
        defaultItemResult) = resultAt worker urls j := by
    intro j hj
    rw [List.getD_eq_getElem?_getD, List.getElem?_map,
      List.getElem?_range hj]
    simp
  refine ⟨by simp, ?_, ?_⟩
  · rw [hgetD i0 hi0]
    unfold resultAt runItem
    rw [hraise]
  · intro j hj
    rw [hgetD j hj]
    rfl

/-- C2 witness: with two URLs where the worker for index 0 raises, the
batch returns both results, marks item 0 failed with the message, and
item 1 keeps its own outcome. -/
theorem worker_fault_contained_witness :
    (1 ≤ (2 : Nat) ∧
      List.Perm [1, 0] (List.range (["a", "b"] : List String).length) ∧
      0 < (["a", "b"] : List String).length ∧
      (fun it : WorkItem => if it.index = 0 then Except.error "boom"
        else Except.ok (⟨true, none, none⟩ : WorkerOutput))
          ⟨(["a", "b"] : List String).getD 0 "", 0⟩ = .error "boom") ∧
    ((run_batch (fun it => if it.index = 0 then .error "boom"
        else .ok ⟨true, none, none⟩) ["a", "b"] 2 [1, 0]).length =
      (["a", "b"] : List String).length ∧
      (run_batch (fun it => if it.index = 0 then .error "boom"
        else .ok ⟨true, none, none⟩) ["a", "b"] 2 [1, 0]).getD 0
          defaultItemResult =
        ⟨⟨(["a", "b"] : List String).getD 0 "", 0⟩, false, none,
          some ⟨"internal", "boom"⟩⟩ ∧
      ∀ j, j < (["a", "b"] : List String).length →
        (run_batch (fun it => if it.index = 0 then .error "boom"
          else .ok ⟨true, none, none⟩) ["a", "b"] 2 [1, 0]).getD j
            defaultItemResult =
          runItem (fun it => if it.index = 0 then .error "boom"
            else .ok ⟨true, none, none⟩)
            ⟨(["a", "b"] : List String).getD j "", j⟩) := by
  refine ⟨⟨by decide, by decide, by decide, ?_⟩, ?_⟩
  · rfl
  · exact worker_fault_contained
      (fun it => if it.index = 0 then .error "boom"
        else .ok ⟨true, none, none⟩)
      ["a", "b"] 2 [1, 0] 0 "boom" (by decide) (by decide) (by decide) rfl

/-- Modelled from the spec: the status carried by a worker progress
event — `started | finished | failed`, a finished event carrying the
item byte/duration contribution (spec section 4.4). -/
inductive EventStatus
  | started
  | finished (bytes : Nat) (duration : ℚ)
  | failed
deriving DecidableEq, Repr

/-- Modelled from the spec: a worker progress event `{item, status}` as
consumed by the Progress Aggregator (spec sections 4.2 and 4.4). -/
structure ProgressEvent where
  itemIndex : Nat
  status : EventStatus
deriving DecidableEq, Repr

/-- Modelled from the spec: `ProgressSnapshot` (spec data model,
section 3).  `in_flight` is an integer counter that `started`
increments and terminal events decrement. -/
structure ProgressSnapshot where
  total : Nat
  completed : Nat
  succeeded : Nat
  failed : Nat
  in_flight : Int
  cumulative_bytes : Nat
  cumulative_duration : ℚ
deriving DecidableEq, Repr

/-- The aggregator state before any event of a batch of `total` items. -/
def initSnapshot (total : Nat) : ProgressSnapshot :=
  ⟨total, 0, 0, 0, 0, 0, 0⟩

/-- Modelled from the spec: the Progress Aggregator update rule —
`started` increments `in_flight`; `finished` decrements `in_flight`,
increments `completed` and `succeeded` and adds the byte/duration
contribution; `failed` decrements `in_flight`, increments `completed`
and `failed` (spec section 4.4). -/
def on_event (s : ProgressSnapshot) (e : ProgressEvent) :
    ProgressSnapshot :=
  match e.status with
  | .started => { s with in_flight := s.in_flight + 1 }
  | .finished b d =>
    { s with
      in_flight := s.in_flight - 1
      completed := s.completed + 1
      succeeded := s.succeeded + 1
      cumulative_bytes := s.cumulative_bytes + b
      cumulative_duration := s.cumulative_duration + d }
  | .failed =>
    { s with
      in_flight := s.in_flight - 1
      completed := s.completed + 1
      failed := s.failed + 1 }

/-- The aggregator state after a trace of worker events. -/
def runEvents (total : Nat) (trace : List ProgressEvent) :
    ProgressSnapshot :=
  trace.foldl on_event (initSnapshot total)

/-- Whether an event is terminal for its item (finished or failed). -/
def EventStatus.isTerminal : EventStatus → Bool
  | .started => false
  | .finished _ _ => true
  | .failed => true

/-- How many events of a trace are terminal.  In a batch of `total`
items every WorkItem yields exactly one terminal event, so a trace of a
batch run has at most `total` terminal events. -/
def terminalCount (trace : List ProgressEvent) : Nat :=
  (trace.filter (fun e => e.status.isTerminal)).length

/-- How many successful ItemResults a processed list holds. -/
def countSuccesses (rs : List ItemResult) : Nat :=
  (rs.filter (fun r => r.success)).length

/-- How many failed ItemResults a processed list holds. -/
def countFailures (rs : List ItemResult) : Nat :=
  (rs.filter (fun r => !r.success)).length

/-- Modelled from the spec: `BatchProgress` as exposed to batch
callbacks, with `total_urls`, `completed_count`, `success_count` and
`failed_count` (tests `TestBatchProgress`; spec section 4.4). -/
structure BatchProgress where
  total_urls : Nat
  completed_count : Nat
  current_url : String
  success_count : Nat
  failed_count : Nat
  total_duration : ℚ
  total_size : Nat
  estimated_time_remaining : Option ℚ
deriving DecidableEq, Repr

/-- Modelled from the spec: the batch-progress value reported after the
scheduler has collected `processed` results out of `total` items (spec
sections 4.3 and 4.4). -/
def batchProgressAfter (total : Nat) (processed : List ItemResult)
    (current : String) : BatchProgress :=
  { total_urls := total
    completed_count := processed.length
    current_url := current
    success_count := countSuccesses processed
    failed_count := countFailures processed
    total_duration := 0
    total_size := 0
    estimated_time_remaining := none }

lemma on_event_fields (s : ProgressSnapshot) (e : ProgressEvent) :
    (on_event s e).total = s.total ∧
    (on_event s e).completed =
      s.completed + (if e.status.isTerminal then 1 else 0) ∧
    (on_event s e).succeeded + (on_event s e).failed =
      s.succeeded + s.failed + (if e.status.isTerminal then 1 else 0) := by
  cases he : e.status <;>
    simp [on_event, he, EventStatus.isTerminal] <;> omega

lemma terminalCount_cons (e : ProgressEvent) (rest : List ProgressEvent) :
    terminalCount (e :: rest) =
      (if e.status.isTerminal then 1 else 0) + terminalCount rest := by
  unfold terminalCount
  rw [List.filter_cons]
  by_cases h : e.status.isTerminal <;> simp [h] <;> omega

lemma foldl_on_event_sum (trace : List ProgressEvent) :
    ∀ s : ProgressSnapshot,
      (trace.foldl on_event s).completed =
        s.completed + terminalCount trace ∧
      (trace.foldl on_event s).succeeded + (trace.foldl on_event s).failed =
        s.succeeded + s.failed + terminalCount trace ∧
      (trace.foldl on_event s).total = s.total := by
  induction trace with
  | nil => intro s; simp [terminalCount]
  | cons e rest ih =>
    intro s
    obtain ⟨h1, h2, h3⟩ := ih (on_event s e)
    obtain ⟨g1, g2, g3⟩ := on_event_fields s e
    rw [List.foldl_cons]
    refine ⟨?_, ?_, ?_⟩
    · rw [h1, g2, terminalCount_cons]
      omega
    · rw [h2, g3, terminalCount_cons]
      omega
    · rw [h3, g1]

lemma countSuccesses_add_countFailures (rs : List ItemResult) :
    countSuccesses rs + countFailures rs = rs.length := by
  induction rs with
  | nil => rfl
  | cons r rest ih =>
    unfold countSuccesses countFailures at *
    cases hr : r.success <;>
      simp [List.filter_cons, hr] <;> omega

/-- C7: every reachable aggregator snapshot of a batch run satisfies
`completed = succeeded + failed` and `completed ≤ total`, and every
BatchProgress value exposed to callbacks keeps the same relations. -/
theorem progress_invariants :
    (∀ (total : Nat) (trace : List ProgressEvent),
      terminalCount trace ≤ total →
      (runEvents total trace).completed =
        (runEvents total trace).succeeded + (runEvents total trace).failed ∧
      (runEvents total trace).completed ≤ (runEvents total trace).total) ∧
    (∀ (total : Nat) (processed : List ItemResult) (current : String),
      processed.length ≤ total →
      (batchProgressAfter total processed current).completed_count =
        (batchProgressAfter total processed current).success_count +
          (batchProgressAfter total processed current).failed_count ∧
      (batchProgressAfter total processed current).completed_count ≤
        (batchProgressAfter total processed current).total_urls) := by
  constructor
  · intro total trace hle
    obtain ⟨h1, h2, h3⟩ := foldl_on_event_sum trace (initSnapshot total)
    have h1c : (runEvents total trace).completed = terminalCount trace := by
      unfold runEvents
      rw [h1]
      simp [initSnapshot]
    have h2c : (runEvents total trace).succeeded +
        (runEvents total trace).failed = terminalCount trace := by
      unfold runEvents
      rw [h2]
      simp [initSnapshot]
    have h3c : (runEvents total trace).total = total := by
      unfold runEvents
      rw [h3]
      rfl
    refine ⟨h1c.trans h2c.symm, ?_⟩
    rw [h1c, h3c]
    exact hle
  · intro total processed current hle
    refine ⟨?_, ?_⟩
    · show processed.length =
        countSuccesses processed + countFailures processed
      rw [countSuccesses_add_countFailures]
    · show processed.length ≤ total
      exact hle

/-- C7 witness: a trace of two items — one finishing, one failing while
a third is still in flight — and a partially processed batch both keep
the counting invariants. -/
theorem progress_invariants_witness :
    (terminalCount [⟨0, .started⟩, ⟨0, .finished 5 2⟩, ⟨1, .started⟩,
        ⟨1, .failed⟩, ⟨2, .started⟩] ≤ 3 ∧
      (runEvents 3 [⟨0, .started⟩, ⟨0, .finished 5 2⟩, ⟨1, .started⟩,
          ⟨1, .failed⟩, ⟨2, .started⟩]).completed =
        (runEvents 3 [⟨0, .started⟩, ⟨0, .finished 5 2⟩, ⟨1, .started⟩,
          ⟨1, .failed⟩, ⟨2, .started⟩]).succeeded +
        (runEvents 3 [⟨0, .started⟩, ⟨0, .finished 5 2⟩, ⟨1, .started⟩,
          ⟨1, .failed⟩, ⟨2, .started⟩]).failed) ∧
    ((⟨defaultItemResult.item, true, none, none⟩ :: [] :
        List ItemResult).length ≤ 2 ∧
      (batchProgressAfter 2 [⟨defaultItemResult.item, true, none, none⟩]
          "u").completed_count =
        (batchProgressAfter 2 [⟨defaultItemResult.item, true, none, none⟩]
          "u").success_count +
        (batchProgressAfter 2 [⟨defaultItemResult.item, true, none, none⟩]
          "u").failed_count) := by
  constructor
  · refine ⟨by decide, ?_⟩
    exact (progress_invariants.1 3
      [⟨0, .started⟩, ⟨0, .finished 5 2⟩, ⟨1, .started⟩, ⟨1, .failed⟩,
        ⟨2, .started⟩] (by decide)).1
  · refine ⟨by decide, ?_⟩
    exact (progress_invariants.2 2
      [⟨defaultItemResult.item, true, none, none⟩] "u" (by decide)).1

/-- Modelled from the spec: the per-event payload handed to a progress
display callback (tests `TestCreateProgressCallback`). -/
structure ProgressData where
  current : Nat
  total : Nat
deriving DecidableEq, Repr

/-- Modelled from the spec: `create_progress_callback` wraps a display
handler in its own failure boundary — a consumer exception is caught and
discarded, never propagated into the worker control flow (spec sections
4.2 and 9; `test_callback_error_handling`). -/
def create_progress_callback (handler : ProgressData → Except String Unit) :
    ProgressData → Except String Unit :=
  fun d =>
    match handler d with
    | .ok _ => .ok ()
    | .error _ => .ok ()

/-- Modelled from the spec: a worker step that emits a progress event
through the wrapped callback and then produces its item result; the
emission is fire-and-forget (spec section 4.2). -/
def emitAndRun (handler : ProgressData → Except String Unit)
    (d : ProgressData) (worker : WorkerStep) (it : WorkItem) :
    Except String ItemResult := do
  let _ ← create_progress_callback handler d
  pure (runItem worker it)

/-- C8: invoking the wrapped progress callback never fails, whatever the
handler does, and a worker step that emits through it returns exactly the
result it would produce with no consumer at all — a throwing consumer
cannot change the pipeline result. -/
theorem callback_isolated (handler : ProgressData → Except String Unit)
    (d : ProgressData) (worker : WorkerStep) (it : WorkItem) :
    create_progress_callback handler d = Except.ok () ∧
    emitAndRun handler d worker it = Except.ok (runItem worker it) := by
  have hcb : create_progress_callback handler d = Except.ok () := by
    unfold create_progress_callback
    cases handler d <;> rfl
  refine ⟨hcb, ?_⟩
  unfold emitAndRun
  rw [hcb]
  rfl

/-- Modelled from the spec: `ProgressBar` with `total`, `description`,
`current` and `start_time` (tests `TestProgressBar`).  Times are rational
numbers of seconds; `start_time = none` before `start()`. -/
structure ProgressBar where
  total : Nat
  description : String
  current : Nat
  start_time : Option ℚ
deriving DecidableEq, Repr

/-- Modelled from the spec: constructing a ProgressBar
(`ProgressBar(total=..., description=...)`). -/
def ProgressBar.init (total : Nat) (desc : String) : ProgressBar :=
  ⟨total, desc, 0, none⟩

/-- Modelled from the spec: `start()` records the start time and resets
`current` to 0. -/
def ProgressBar.start (pb : ProgressBar) (now : ℚ) : ProgressBar :=
  { pb with current := 0, start_time := some now }

/-- Modelled from the spec: `update(n)` sets the progress; with
`increment = true` it adds to it (`test_update_with_increment`). -/
def ProgressBar.update (pb : ProgressBar) (n : Nat) (increment : Bool) :
    ProgressBar :=
  { pb with current := if increment then pb.current + n else n }

/-- Modelled from the spec: `finish()` sets `current` to `total`. -/
def ProgressBar.finish (pb : ProgressBar) : ProgressBar :=
  { pb with current := pb.total }

/-- Modelled from the spec: `get_elapsed_time()` — seconds since
`start()`, 0 if never started. -/
def ProgressBar.get_elapsed_time (pb : ProgressBar) (now : ℚ) : ℚ :=
  match pb.start_time with
  | some t => now - t
  | none => 0

/-- Modelled from the spec: `get_percentage()` — returns 100 when
`total = 0` instead of dividing by zero, else `current / total * 100`
(`test_zero_total_handling`, `test_percentage_calculation`). -/
def ProgressBar.get_percentage (pb : ProgressBar) : ℚ :=
  if pb.total = 0 then 100 else (pb.current : ℚ) / (pb.total : ℚ) * 100

/-- Modelled from the spec: `get_estimated_remaining_time()` — unknown
before any completion; afterwards the remaining items divided by the
observed completion rate `current / elapsed` (spec section 4.4). -/
def ProgressBar.get_estimated_remaining_time (pb : ProgressBar)
    (now : ℚ) : Option ℚ :=
  if pb.current = 0 then none
  else
    let elapsed := pb.get_elapsed_time now
    let rate := (pb.current : ℚ) / elapsed
    some (((pb.total : ℚ) - (pb.current : ℚ)) / rate)

/-- C9: with `completed ≥ 1` the estimated remaining time equals
`(elapsed / completed) * (total - completed)`; with `completed = 0` it
is the distinguished unknown value, not zero. -/
theorem estimated_remaining_formula (pb : ProgressBar) (now : ℚ) :
    (1 ≤ pb.current →
      pb.get_estimated_remaining_time now =
        some ((pb.get_elapsed_time now / (pb.current : ℚ)) *
          ((pb.total : ℚ) - (pb.current : ℚ)))) ∧
    (pb.current = 0 → pb.get_estimated_remaining_time now = none) := by
  constructor
  · intro h1
    have hne : ¬(pb.current = 0) := by omega
    unfold ProgressBar.get_estimated_remaining_time
    rw [if_neg hne]
    simp only []
    congr 1
    rw [div_div_eq_mul_div]
    ring
  · intro h0
    unfold ProgressBar.get_estimated_remaining_time
    rw [if_pos h0]

/-- C9 witness: 50 of 100 items done after 10 seconds gives the
remaining time predicted by the spec formula. -/
theorem estimated_remaining_formula_witness :
    1 ≤ (⟨100, "w", 50, some 0⟩ : ProgressBar).current ∧
    (⟨100, "w", 50, some 0⟩ : ProgressBar).get_estimated_remaining_time 10 =
      some (((⟨100, "w", 50, some 0⟩ : ProgressBar).get_elapsed_time 10 /
        (((⟨100, "w", 50, some 0⟩ : ProgressBar).current : ℚ))) *
        ((((⟨100, "w", 50, some 0⟩ : ProgressBar).total : ℚ)) -
          (((⟨100, "w", 50, some 0⟩ : ProgressBar).current : ℚ)))) :=
  ⟨by decide,
    (estimated_remaining_formula ⟨100, "w", 50, some 0⟩ 10).1 (by decide)⟩

/-- C10: a ProgressBar with `total = 0` reports 100 percent after
`start()` instead of a division-by-zero fault, and the percentage
computation is a total function of the bar state: the zero-total guard
applies for every state, and a started 100-item bar at 25 reads 25. -/
theorem zero_total_percentage :
    (∀ (desc : String) (now : ℚ),
      ((ProgressBar.init 0 desc).start now).get_percentage = 100) ∧
    (∀ pb : ProgressBar, pb.get_percentage =
      if pb.total = 0 then 100
      else (pb.current : ℚ) / (pb.total : ℚ) * 100) ∧
    (∀ (desc : String) (now : ℚ),
      ((((ProgressBar.init 100 desc).start now).update 25
        false)).get_percentage = 25) := by
  refine ⟨fun desc now => rfl, fun pb => rfl, fun desc now => ?_⟩
  show ((((25 : Nat) : ℚ)) / ((100 : Nat) : ℚ) * 100 : ℚ) = 25
  norm_num

end VideoDraft
